import Mathlib

/-!
Shallow embedding of the simplebus server (src/server.rs): the per-connection
event framing loop `Server::read_event` and the accept loop `Server::listen`,
over finite byte streams, together with theorems settling the spec's claims.
-/

namespace SimpleBus

/-- A byte of the TCP stream, as a natural number (values 0..255 in use). -/
abbrev Byte := Nat

/-- The `Event` struct of src/server.rs: `topic : String` (modelled as its list
of characters) and `payload : Vec of u8`. -/
structure Event where
  topic : List Char
  payload : List Byte
deriving DecidableEq

/-- The two error channels of `Server::read_event` that are propagated by the
`?` operator: `std::str::from_utf8` failing on the topic slice, and the payload
`read_exact` failing on early EOF. The length step's `read_exact` result is
discarded by the source (`let _ = ... .await;` with no `?`), so the length read
contributes no error. -/
inductive ReadError where
  | topicUtf8Error : ReadError
  | payloadReadError : ReadError
deriving DecidableEq

/-- Model of `AsyncBufReadExt::read_until` with delimiter `b'\n'` on a finite
stream: bytes are consumed up to and including the first newline byte (10), or
up to EOF if no newline occurs. The first component is the bytes read (the
source appends exactly these to its buffer), the second the remaining stream.
EOF is not an error: at EOF zero bytes are read and `Ok(0)` is returned. There
is no capacity bound: the destination `Vec` grows as needed. -/
def readUntilNewline : List Byte → List Byte × List Byte
  | [] => ([], [])
  | b :: rest =>
    if b = 10 then ([b], rest)
    else
      let r := readUntilNewline rest
      (b :: r.1, r.2)

/-- Prepend a character to an optional decoded tail. -/
def consChar (c : Char) : Option (List Char) → Option (List Char)
  | some cs => some (c :: cs)
  | none => none

/-- Mid-sequence state of the UTF-8 validator: the accumulated codepoint bits,
how many continuation bytes are still expected, and the allowed inclusive range
of the next byte (the range differs from 0x80..0xBF only right after the lead
bytes 0xE0, 0xED, 0xF0 and 0xF4, ruling out overlong encodings, surrogates and
codepoints above 0x10FFFF). -/
structure Utf8Pending where
  acc : Nat
  need : Nat
  lo : Byte
  hi : Byte

/-- Byte-at-a-time strict UTF-8 decoder (the recursion driving `utf8Decode`).
At a character boundary (`none` state) an ASCII byte is emitted directly, a
lead byte opens a pending sequence, and anything else (stray continuation byte,
0xC0/0xC1, bytes at or above 0xF5) is rejected; in a pending state the byte
must lie in the allowed continuation range, and the character is emitted when
the last expected continuation byte arrives. A pending state at end of input is
an incomplete sequence and is rejected. -/
def utf8Run : Option Utf8Pending → List Byte → Option (List Char)
  | none, [] => some []
  | some _, [] => none
  | none, b :: rest =>
    if b < 0x80 then consChar (Char.ofNat b) (utf8Run none rest)
    else if b < 0xC2 then none
    else if b < 0xE0 then utf8Run (some ⟨b - 0xC0, 1, 0x80, 0xBF⟩) rest
    else if b < 0xF0 then
      utf8Run (some ⟨b - 0xE0, 2,
        if b = 0xE0 then 0xA0 else 0x80,
        if b = 0xED then 0x9F else 0xBF⟩) rest
    else if b < 0xF5 then
      utf8Run (some ⟨b - 0xF0, 3,
        if b = 0xF0 then 0x90 else 0x80,
        if b = 0xF4 then 0x8F else 0xBF⟩) rest
    else none
  | some st, b :: rest =>
    if st.lo ≤ b ∧ b ≤ st.hi then
      if st.need = 1 then
        consChar (Char.ofNat (st.acc * 0x40 + (b - 0x80))) (utf8Run none rest)
      else
        utf8Run (some ⟨st.acc * 0x40 + (b - 0x80), st.need - 1,
          0x80, 0xBF⟩) rest
    else none

/-- Strict UTF-8 decoding as performed by `std::str::from_utf8`: rejects stray
continuation bytes, overlong encodings, surrogate codepoints and codepoints
above 0x10FFFF. Returns the decoded characters, or `none` on invalid input. -/
def utf8Decode (l : List Byte) : Option (List Char) :=
  utf8Run none l

/-- Model of `str::trim_end_matches` with the pattern slice containing CR and
LF: repeatedly removes trailing characters equal to CR or LF. -/
def trimEndCrLf (cs : List Char) : List Char :=
  (cs.reverse.dropWhile (fun c => c == '\r' || c == '\n')).reverse

/-- Model of `u32::from_be_bytes` on a 4-byte array (big-endian). -/
def be32 (l : List Byte) : Nat :=
  match l with
  | [a, b, c, d] => ((a * 256 + b) * 256 + c) * 256 + d
  | _ => 0

/-- Shallow embedding of `Server::read_event` (src/server.rs lines 24-38) on a
finite byte stream. Faithful to the source:
  * `buf` is allocated as `vec![0u8; 1024]` — 1024 ZERO bytes of content, not
    an empty buffer — and `read_until` APPENDS the bytes it reads after them;
  * the topic is decoded from `buf[..bytes_read]`, i.e. from the preallocated
    zero bytes (plus, only when more than 1024 bytes were read, a prefix of the
    bytes actually read), then trailing CR/LF are trimmed;
  * the 4-byte length read error is discarded (`let _ = ...` without `?`): on
    early EOF the length array keeps its zero initialisation in every position
    the stream could not fill;
  * the payload `read_exact` error IS propagated by `?`.
Returns the decoded event together with the unconsumed rest of the stream. -/
def read_event (s : List Byte) : Except ReadError (Event × List Byte) :=
  let r := readUntilNewline s
  let bytesRead := r.1.length
  let buf := List.replicate 1024 0 ++ r.1
  match utf8Decode (buf.take bytesRead) with
  | none => .error .topicUtf8Error
  | some cs =>
    let topic := trimEndCrLf cs
    let lengthBytes := r.2.take 4 ++ List.replicate (4 - r.2.length) 0
    let length := be32 lengthBytes
    let s2 := r.2.drop 4
    if length ≤ s2.length then
      .ok (⟨topic, s2.take length⟩, s2.drop length)
    else
      .error .payloadReadError

/-- The per-connection loop spawned by `Server::listen`: repeatedly call
`read_event`; on `Ok` the event is handed to the consumer (collected here in
order) and the loop continues; on `Err` the error is logged and the loop
breaks. `fuel` bounds how many iterations are modelled. The second component is
`some e` when the loop broke with error `e` within the given fuel, and `none`
when the loop was still running after `fuel` iterations. -/
def connLoop : Nat → List Byte → List Event × Option ReadError
  | 0, _ => ([], none)
  | Nat.succ fuel, s =>
    match read_event s with
    | .error e => ([], some e)
    | .ok (ev, s2) =>
      let r := connLoop fuel s2
      (ev :: r.1, r.2)

/-- The errors that escape `Server::listen` through `?`: a `TcpListener::bind`
failure at startup, and a `listener.accept()` failure inside the accept loop. -/
inductive ListenError where
  | bindError : ListenError
  | acceptError : ListenError
deriving DecidableEq

/-- The accept loop of `Server::listen`: each successfully accepted connection
is handled by an independent spawned task, modelled by `connLoop` on that
connection's own byte stream (connections share no state); an `accept` failure
is propagated by `?`, ending the loop. Returns the per-connection traces of the
accepted connections and `some ListenError.acceptError` if an accept failed
(`none` means the loop is still accepting when the schedule runs out). -/
def acceptLoop (fuel : Nat) :
    List (Except Unit (List Byte)) →
      List (List Event × Option ReadError) × Option ListenError
  | [] => ([], none)
  | Except.error _ :: _ => ([], some ListenError.acceptError)
  | Except.ok s :: rest =>
    let r := acceptLoop fuel rest
    (connLoop fuel s :: r.1, r.2)

/-- Shallow embedding of `Server::listen` (src/server.rs lines 40-61): the bind
may fail, which is escalated to the caller (`bindError`); on success the accept
loop runs over the finite schedule `accepts` of observed accept results. -/
def listen (bindOk : Bool) (fuel : Nat)
    (accepts : List (Except Unit (List Byte))) :
    List (List Event × Option ReadError) × Option ListenError :=
  if bindOk then acceptLoop fuel accepts else ([], some ListenError.bindError)

/-! ### Helper lemmas -/

/-- Reading until the newline on a stream that starts with a newline-free
prefix `t` followed by a newline consumes exactly `t ++ newline`. -/
theorem readUntilNewline_append (t rest : List Byte) (h : 10 ∉ t) :
    readUntilNewline (t ++ 10 :: rest) = (t ++ [10], rest) := by
  induction t with
  | nil => simp [readUntilNewline]
  | cons b t ih =>
    have hb : ¬ b = 10 := fun hb => h (hb ▸ List.mem_cons_self b t)
    have ht : 10 ∉ t := fun hm => h (List.mem_cons_of_mem _ hm)
    simp [readUntilNewline, hb, ih ht]

/-- The byte-at-a-time decoder on a pure-ASCII byte list always succeeds,
mapping each byte to its character. -/
theorem utf8Run_ascii (l : List Byte) (h : ∀ b ∈ l, b < 0x80) :
    utf8Run none l = some (l.map Char.ofNat) := by
  induction l with
  | nil => rfl
  | cons b l ih =>
    have hb : b < 0x80 := h b (List.mem_cons_self b l)
    have hrest := ih (fun x hx => h x (List.mem_cons_of_mem _ hx))
    simp only [utf8Run, if_pos hb, hrest, consChar, List.map_cons]

/-- UTF-8 decoding of a pure-ASCII byte list always succeeds, mapping each byte
to its character. -/
theorem utf8Decode_ascii (l : List Byte) (h : ∀ b ∈ l, b < 0x80) :
    utf8Decode l = some (l.map Char.ofNat) :=
  utf8Run_ascii l h

/-- Reading until the newline on a newline-free stream consumes the whole
stream (EOF ends the read without an error). -/
theorem readUntilNewline_no_newline (l : List Byte) (h : 10 ∉ l) :
    readUntilNewline l = (l, []) := by
  induction l with
  | nil => rfl
  | cons b l ih =>
    have hb : ¬ b = 10 := fun hb => h (hb ▸ List.mem_cons_self b l)
    have ht : 10 ∉ l := fun hm => h (List.mem_cons_of_mem _ hm)
    simp [readUntilNewline, hb, ih ht]

/-- `dropWhile` leaves a list unchanged when no element satisfies the
predicate. -/
theorem dropWhile_eq_self_of_forall_false {α : Type} (p : α → Bool)
    (l : List α) (h : ∀ x ∈ l, p x = false) : List.dropWhile p l = l := by
  cases l with
  | nil => rfl
  | cons a l =>
    rw [List.dropWhile_cons, if_neg]
    rw [h a (List.mem_cons_self a l)]
    simp

/-- Trimming trailing CR/LF characters leaves a list unchanged when none of its
characters is CR or LF. -/
theorem trimEndCrLf_eq_self (cs : List Char)
    (h : ∀ c ∈ cs, (c == '\r' || c == '\n') = false) :
    trimEndCrLf cs = cs := by
  unfold trimEndCrLf
  rw [dropWhile_eq_self_of_forall_false _ _
    (fun c hc => h c (List.mem_reverse.mp hc)), List.reverse_reverse]

/-- At EOF with no pending bytes, the embedded `read_event` succeeds with an
empty topic and empty payload: the delimiter read returns zero bytes without an
error, the length read fails but its error is dropped so the length array stays
all-zero, and the zero-length payload read trivially succeeds. -/
theorem read_event_nil : read_event [] = .ok (⟨[], []⟩, []) := rfl

/-! ### Claim theorems -/

/-- C1: the claim says the input bytes ORDERS-newline, 0x00000005, HELLO decode
to an event with topic ORDERS and payload HELLO, the topic being the bytes
actually read. The code instead decodes the topic slice from the preallocated
zero bytes of `buf` (since `read_until` appends after them), so the topic is
seven NUL characters, not ORDERS; the payload is decoded correctly. -/
theorem c1_concrete_frame_stale_topic :
    read_event ([111, 114, 100, 101, 114, 115, 10] ++
        [0, 0, 0, 5] ++ [104, 101, 108, 108, 111]) =
      .ok (⟨List.replicate 7 (Char.ofNat 0), [104, 101, 108, 108, 111]⟩, []) ∧
    List.replicate 7 (Char.ofNat 0) ≠ ([111, 114, 100, 101, 114, 115] :
        List Byte).map Char.ofNat := by
  constructor
  · rfl
  · decide

/-- C2: the claim says that if the stream closes after the topic line but
before the 4 length bytes arrive, `read_event` fails with IncompleteLength and
emits no event. The code discards the length read's error, leaves the length
array zero, and returns Ok with an (empty-payload) event. -/
theorem c2_eof_after_topic_returns_ok :
    read_event [111, 114, 100, 101, 114, 115, 10] =
      .ok (⟨List.replicate 7 (Char.ofNat 0), []⟩, []) := rfl

/-- C3: the claim says an event is only constructed after the topic line and
the full payload are read successfully, so no partial event reaches the
consumer. On the single byte `x` with no newline and no length prefix, the code
still returns Ok with an event: the truncated topic line and the missing length
prefix do not prevent construction. -/
theorem c3_partial_event_emitted :
    read_event [120] = .ok (⟨[Char.ofNat 0], []⟩, []) := rfl

/-- C4: the claim says two valid frames concatenated back-to-back yield exactly
two events. Running the per-connection loop on two copies of the frame
A-newline, 0x00000001, X emits three events within three iterations (two
corrupted-topic events for the frames, then an empty event produced at EOF) and
the loop has not terminated — never exactly two. -/
theorem c4_pipelining_not_two_events :
    connLoop 3 ([97, 10, 0, 0, 0, 1, 120] ++ [97, 10, 0, 0, 0, 1, 120]) =
      ([⟨List.replicate 2 (Char.ofNat 0), [120]⟩,
        ⟨List.replicate 2 (Char.ofNat 0), [120]⟩, ⟨[], []⟩], none) ∧
    (connLoop 3 ([97, 10, 0, 0, 0, 1, 120] ++
        [97, 10, 0, 0, 0, 1, 120])).1.length ≠ 2 := by
  constructor
  · rfl
  · decide

/-- C5: the claim says a topic line longer than the 1024-byte working buffer
with no newline fails with TopicTooLong. The code has no capacity check:
`read_until` grows the `Vec` past the 1024 preallocated zeros, and on a
2000-byte newline-free (EOF-terminated) line `read_event` returns Ok, with a
topic decoded from the 1024 stale zeros followed by the first 976 input
bytes. -/
theorem c5_overlong_topic_no_error :
    read_event (List.replicate 2000 97) =
      .ok (⟨List.replicate 1024 (Char.ofNat 0) ++ List.replicate 976 'a',
        []⟩, []) := by
  have hnn : (10 : Byte) ∉ List.replicate 2000 97 := by
    intro hm
    exact absurd (List.eq_of_mem_replicate hm) (by decide)
  have hr := readUntilNewline_no_newline _ hnn
  have hbuf : (List.replicate 1024 (0 : Byte) ++ List.replicate 2000 97).take
      (List.replicate (2000 : Nat) (97 : Byte)).length =
      List.replicate 1024 0 ++ List.replicate 976 97 := by
    rw [List.length_replicate, List.take_append_eq_append_take,
      List.take_replicate, List.take_replicate, List.length_replicate]
    norm_num
  have ha : Char.ofNat 97 = 'a' := by decide
  have hdec : utf8Decode (List.replicate 1024 (0 : Byte) ++
      List.replicate 976 97) =
      some (List.replicate 1024 (Char.ofNat 0) ++ List.replicate 976 'a') := by
    rw [utf8Decode_ascii _ (fun b hb => by
        rcases List.mem_append.mp hb with h | h <;>
          (rw [List.eq_of_mem_replicate h]; decide)),
      List.map_append, List.map_replicate, List.map_replicate, ha]
  have htopic : trimEndCrLf (List.replicate 1024 (Char.ofNat 0) ++
      List.replicate 976 'a') =
      List.replicate 1024 (Char.ofNat 0) ++ List.replicate 976 'a' := by
    refine trimEndCrLf_eq_self _ (fun c hc => ?_)
    rcases List.mem_append.mp hc with h | h <;>
      (rw [List.eq_of_mem_replicate h]; decide)
  have hbe : be32 (List.replicate 4 (0 : Byte)) = 0 := rfl
  simp only [read_event, hr, hbuf, hdec, htopic, List.take_nil,
    List.length_nil, List.drop_nil, List.nil_append, Nat.sub_zero, hbe,
    List.take_zero, Nat.le_refl, if_pos]

/-- C6: if the stream closes after a complete topic line and a complete 4-byte
length prefix but before `length` payload bytes have arrived, `read_event`
fails (the payload `read_exact` error is propagated by `?`) and no event is
emitted. `t` is the newline-free topic bytes (shorter than the 1024-byte
buffer), `lb` the 4 length-prefix bytes, `p` the partial payload. -/
theorem c6_short_payload_fails (t lb p : List Byte)
    (ht : 10 ∉ t) (htlen : t.length < 1024)
    (hlb : lb.length = 4) (hp : p.length < be32 lb) :
    read_event (t ++ 10 :: (lb ++ p)) = .error .payloadReadError := by
  have hr := readUntilNewline_append t (lb ++ p) ht
  have hlen : (t ++ [10]).length = t.length + 1 := by
    simp
  have hbuf : (List.replicate 1024 (0 : Byte) ++ (t ++ [10])).take
      (t ++ [10]).length = List.replicate (t.length + 1) 0 := by
    rw [List.take_append_of_le_length (by rw [List.length_replicate, hlen]; omega),
      List.take_replicate, hlen, min_eq_left (by omega)]
  have hdec : utf8Decode (List.replicate (t.length + 1) (0 : Byte)) =
      some (List.replicate (t.length + 1) (Char.ofNat 0)) := by
    rw [utf8Decode_ascii _ (fun b hb => by
      rw [List.eq_of_mem_replicate hb]; decide), List.map_replicate]
  have htake : (lb ++ p).take 4 = lb := List.take_left' hlb
  have hdrop : (lb ++ p).drop 4 = p := List.drop_left' hlb
  have hpad : 4 - (lb ++ p).length = 0 := by
    rw [List.length_append, hlb]; omega
  simp only [read_event, hr, hbuf, hdec, htake, hdrop, hpad,
    List.replicate_zero, List.append_nil]
  rw [if_neg (by omega)]

/-- Witness for C6 at the concrete stream topic byte 97, newline, length prefix
0x00000002, then a single payload byte before EOF. -/
theorem c6_short_payload_fails_witness :
    (10 ∉ ([97] : List Byte)) ∧ ([97] : List Byte).length < 1024 ∧
    ([0, 0, 0, 2] : List Byte).length = 4 ∧
    ([120] : List Byte).length < be32 [0, 0, 0, 2] ∧
    read_event ([97] ++ 10 :: ([0, 0, 0, 2] ++ [120])) =
      .error .payloadReadError :=
  ⟨by decide, by decide, by decide, by decide,
    c6_short_payload_fails [97] [0, 0, 0, 2] [120]
      (by decide) (by decide) (by decide) (by decide)⟩

/-- C7: the claim says the per-connection loop always terminates once the peer
has closed the stream. On a cleanly closed stream with no pending bytes, every
iteration's `read_event` returns Ok with an empty event, so for every fuel
bound the loop has emitted that many empty events and has not broken: it spins
forever instead of terminating. -/
theorem c7_loop_spins_forever_at_eof (n : Nat) :
    connLoop n [] = (List.replicate n ⟨[], []⟩, none) := by
  induction n with
  | zero => rfl
  | succ n ih => simp [connLoop, read_event_nil, ih, List.replicate_succ]

/-- C8: the claim says non-UTF-8 topic bytes make the reader fail with
InvalidTopicEncoding. The code applies the UTF-8 check to the stale zero bytes
of the preallocated buffer, which are always valid, so the invalid byte 0xFF in
the topic line produces no error: `read_event` returns Ok with a two-NUL
topic. -/
theorem c8_invalid_utf8_not_detected :
    read_event [255, 10] = .ok (⟨List.replicate 2 (Char.ofNat 0), []⟩, []) :=
  rfl

/-- C9 counterexample: the claim says no error is escalated to process-level
failure except BindError. In the code, `listener.accept().await?` propagates an
accept failure out of `listen`: the model returns `acceptError`, which is not
`bindError`, so a non-bind error is escalated. -/
theorem c9_accept_error_escalates :
    listen true 1 [Except.error ()] = ([], some ListenError.acceptError) ∧
    ListenError.acceptError ≠ ListenError.bindError := by
  constructor
  · rfl
  · decide

/-- C9 amended: every per-connection error is handled locally — each accepted
connection is handled by an independent loop on its own stream, a connection's
failure terminates only that connection and never affects the Listener or the
other connections, and while accepts succeed the Listener keeps accepting the
whole schedule; however, besides BindError, an accept failure is also escalated
out of the listen loop. -/
theorem c9_per_connection_containment (fuel : Nat) (conns : List (List Byte)) :
    listen true fuel (conns.map Except.ok) =
      (conns.map (connLoop fuel), none) := by
  induction conns with
  | nil => rfl
  | cons c conns ih =>
    simp only [listen, if_pos] at ih ⊢
    simp [acceptLoop, ih]

/-- C10: at EOF with no pending bytes, `read_event` returns Ok rather than an
error: the delimiter read yields zero bytes without failing, the failed 4-byte
length read is ignored leaving the length zero, and the empty payload read
succeeds, producing an event with empty topic and empty payload — a cleanly
closed peer does not make `read_event` return Err. -/
theorem c10_read_event_ok_at_eof : read_event [] = .ok (⟨[], []⟩, []) :=
  read_event_nil

end SimpleBus
